import Mathlib

/-!
Verification of `zrpc/internal/serverinterceptors/timeoutinterceptor.go`.

The Go file has three parts:

* a process-wide registry `methodTimeout : sync.Map` with writer
  `SetTimeoutForFullMethod`;
* the pure resolver `getTimeoutByUnaryServerInfo` consulting, in order,
  an optional `TimeoutStrategy` on the server, the registry, and the default;
* `UnaryTimeoutInterceptor`, which races a worker goroutine running the
  handler against the call context's Done signal and against a relayed
  fault delivered on a buffered channel.

The pure parts are embedded as Lean functions.  The racing executor is
embedded as a small-step interleaving machine over an explicit state
(program counters for the worker goroutine and the supervising select,
the mutex, the result slots, the `done` channel, the buffered fault
channel, and the call context's fired flag), and the claims are proved
as invariants of all reachable states.
-/

namespace TimeoutInterceptor

/-- A Go `any` value together with its `%+v` rendering: either the nil
interface value or a concrete value identified by its formatted text. -/
inductive GoAny
  | nil
  | mk (repr : String)
deriving DecidableEq

/-- The two gRPC status codes used by the interceptor:
`codes.Canceled` and `codes.DeadlineExceeded`. -/
inductive GrpcCode
  | canceled
  | deadlineExceeded
deriving DecidableEq

/-- Go `error` values the interceptor can observe or build: the two
context sentinel errors, a gRPC status error built by `status.Error`,
and an arbitrary error returned by the handler. -/
inductive GoErr
  | ctxCanceled
  | ctxDeadlineExceeded
  | statusErr (code : GrpcCode) (msg : String)
  | handlerErr (repr : String)
deriving DecidableEq

/-- `err.Error()` for the errors above; the context sentinels carry the
strings used by Go's `context` package. -/
def GoErr.message : GoErr → String
  | .ctxCanceled => "context canceled"
  | .ctxDeadlineExceeded => "context deadline exceeded"
  | .statusErr _ m => m
  | .handlerErr m => m

/-- Why the call context's Done channel fired: the inbound context was
canceled, or the deadline set by `context.WithTimeout` elapsed. -/
inductive CtxReason
  | canceled
  | deadlineExceeded
deriving DecidableEq

/-- `ctx.Err()` once the context has fired. -/
def ctxErrOf : CtxReason → GoErr
  | .canceled => .ctxCanceled
  | .deadlineExceeded => .ctxDeadlineExceeded

/-- The error mapping on the `<-ctx.Done()` branch of the select:
`errors.Is(err, context.Canceled)` wraps with `codes.Canceled`, else
`errors.Is(err, context.DeadlineExceeded)` wraps with
`codes.DeadlineExceeded`. -/
def mapCtxErr (e : GoErr) : GoErr :=
  if e = .ctxCanceled then .statusErr .canceled e.message
  else if e = .ctxDeadlineExceeded then .statusErr .deadlineExceeded e.message
  else e

/- ### The timeout registry and resolver -/

/-- A value stored in the `sync.Map`: either a `time.Duration` or a value
of some other dynamic type (the resolver's type assertion can fail). -/
inductive RegVal
  | duration (d : Int)
  | other
deriving DecidableEq

/-- The process-wide `methodTimeout : sync.Map`, keyed by full method. -/
def Registry : Type := String → Option RegVal

/-- `SetTimeoutForFullMethod`: `methodTimeout.Store(fullMethod, timeout)`. -/
def SetTimeoutForFullMethod (reg : Registry) (fullMethod : String)
    (timeout : Int) : Registry :=
  fun k => if k = fullMethod then some (.duration timeout) else reg k

/-- The server instance carried in `grpc.UnaryServerInfo`: it either does
not implement `TimeoutStrategy`, or it implements it with the given
`GetTimeoutByFullMethod` function. -/
inductive ServerVal
  | plain
  | withStrategy (getTimeoutByFullMethod : String → Int → Int)

/-- The fields of `grpc.UnaryServerInfo` the interceptor reads. -/
structure UnaryServerInfo where
  server : ServerVal
  fullMethod : String

/-- `getTimeoutByUnaryServerInfo`: strategy first, then the registry entry
when it is a `time.Duration`, then the default. -/
def getTimeoutByUnaryServerInfo (reg : Registry) (info : UnaryServerInfo)
    (defaultTimeout : Int) : Int :=
  match info.server with
  | .withStrategy f => f info.fullMethod defaultTimeout
  | .plain =>
    match reg info.fullMethod with
    | some (.duration t) => t
    | some .other => defaultTimeout
    | none => defaultTimeout

/-- Apply a list of `SetTimeoutForFullMethod` registrations in order. -/
def applyRegs (l : List (String × Int)) (reg : Registry) : Registry :=
  l.foldl (fun r p => SetTimeoutForFullMethod r p.1 p.2) reg

/-- The closure variable `timeout` captured by the wrapper returned by
`UnaryTimeoutInterceptor`: line 28 reassigns it on every invocation, so
its value before invocation `n` is the fold of the resolver over the
previous invocations.  `regs n` is the registry contents and `f n` the
`UnaryServerInfo` at invocation `n`. -/
def capturedVar (regs : Nat → Registry) (d : Int)
    (f : Nat → UnaryServerInfo) : Nat → Int
  | 0 => d
  | n + 1 => getTimeoutByUnaryServerInfo (regs n) (f n) (capturedVar regs d f n)

/-- The timeout resolved (and used for `context.WithTimeout`) at
invocation `n`. -/
def resolvedTimeout (regs : Nat → Registry) (d : Int)
    (f : Nat → UnaryServerInfo) (n : Nat) : Int :=
  capturedVar regs d f (n + 1)

/- ### The bounded executor: an interleaving machine

One invocation of the wrapper is modelled as two tasks — the worker
goroutine started by `go func() {...}` and the supervising select — plus
an environment step that fires the call context.  Every Go statement
that touches shared state is a separate step, so arbitrary interleavings
are covered; the assignment `resp, err = handler(ctx, req)` is split
into two writes so that a torn read is representable and provably
excluded by the mutex. -/

/-- What the handler call itself does: return a `(response, error)` pair
or terminate by raising a value (which `recover` will yield). -/
inductive HandlerOutcome
  | ret (resp : GoAny) (err : Option GoErr)
  | panics (v : GoAny)
deriving DecidableEq

/-- Per-invocation environment: the handler's behaviour, the reason the
call context reports when its Done channel fires, and the bytes returned
by `debug.Stack()` in the worker's deferred recovery function. -/
structure Env where
  handlerRes : HandlerOutcome
  ctxReason : CtxReason
  stack : String
deriving DecidableEq

/-- `fmt.Sprintf("%+v", p)` for the recovered value. -/
def formatPlusV : GoAny → String
  | .nil => "<nil>"
  | .mk s => s

/-- Drop leading whitespace characters. -/
def trimLeftChars : List Char → List Char
  | [] => []
  | c :: cs => if c.isWhitespace then trimLeftChars cs else c :: cs

/-- `strings.TrimSpace`: drop leading and trailing whitespace. -/
def trimSpace (s : String) : String :=
  String.mk ((trimLeftChars (trimLeftChars s.data).reverse).reverse)

/-- The string sent on the fault channel:
`fmt.Sprintf("%+v\n\n%s", p, strings.TrimSpace(string(debug.Stack())))`. -/
def panicMessage (p : GoAny) (stack : String) : String :=
  formatPlusV p ++ "\n\n" ++ trimSpace stack

/-- Who currently holds the mutex `lock`. -/
inductive Owner
  | worker
  | supervisor
deriving DecidableEq

/-- Program counter of the worker goroutine.  The normal path is
`lockAcq → callHandler → writeResp → writeErr → closeDone → unlockNormal
→ exited`; a fault in the handler branches to
`unlockPanic → recoverStep → (sendFault →) exited`, the deferred
`lock.Unlock()` running before the deferred recovery function. -/
inductive WPc
  | lockAcq
  | callHandler
  | writeResp (r : GoAny) (e : Option GoErr)
  | writeErr (e : Option GoErr)
  | closeDone
  | unlockNormal
  | unlockPanic (v : GoAny)
  | recoverStep (v : GoAny)
  | sendFault (msg : String)
  | exited
deriving DecidableEq

/-- Program counter of the supervising task.  `selecting` is the three-way
select; the completion branch proceeds `lockAcqDone → readResp → readErr
→ finished`, the other two branches finish in one step. -/
inductive SPc
  | selecting
  | lockAcqDone
  | readResp
  | readErr (r : GoAny)
  | finished
deriving DecidableEq

/-- Whether the worker's program counter is inside its
`lock.Lock() … lock.Unlock()` critical section. -/
def WPc.inCrit : WPc → Bool
  | .lockAcq => false
  | .callHandler => true
  | .writeResp _ _ => true
  | .writeErr _ => true
  | .closeDone => true
  | .unlockNormal => true
  | .unlockPanic _ => true
  | .recoverStep _ => false
  | .sendFault _ => false
  | .exited => false

/-- Whether the supervisor's program counter is inside its critical
section on the completion branch. -/
def SPc.inCrit : SPc → Bool
  | .selecting => false
  | .lockAcqDone => false
  | .readResp => true
  | .readErr _ => true
  | .finished => false

/-- Which select branch decided the invocation. -/
inductive Branch
  | relay
  | completion
  | ctxDone
deriving DecidableEq

/-- The invocation's outcome: a normal `(response, error)` return, or a
re-raised fault carrying the relayed message. -/
inductive Outcome
  | ret (resp : GoAny) (err : Option GoErr)
  | faulted (msg : String)
deriving DecidableEq

/-- The shared state of one invocation.  `respSlot`/`errSlot` are the
variables `resp`/`err` (zero values `nil`); `chan` is the buffered
`panicChan` (capacity 1); `doneClosed` is the `done` channel;
`ctxFired` is whether `ctx.Done()` is closed.  `respWrites`,
`errWrites`, `sendCount`, `readCount` and `decidedBy` are ghost
observers counting events; they influence no transition. -/
structure St where
  wpc : WPc
  spc : SPc
  lockHeld : Option Owner
  respSlot : GoAny
  errSlot : Option GoErr
  respWritten : Bool
  errWritten : Bool
  respWrites : Nat
  errWrites : Nat
  doneClosed : Bool
  chan : List String
  sendCount : Nat
  readCount : Nat
  ctxFired : Bool
  outcome : Option Outcome
  decidedBy : Option Branch
deriving DecidableEq

/-- The state at the top of an invocation, right after
`ctx, cancel := context.WithTimeout(ctx, timeout)` and the channel
creations. -/
def initSt : St :=
  { wpc := .lockAcq
    spc := .selecting
    lockHeld := none
    respSlot := .nil
    errSlot := none
    respWritten := false
    errWritten := false
    respWrites := 0
    errWrites := 0
    doneClosed := false
    chan := []
    sendCount := 0
    readCount := 0
    ctxFired := false
    outcome := none
    decidedBy := none }

/-- One interleaved step of the invocation: an environment step firing
the call context, a worker step, or a supervisor step.  Channel receive
and send follow Go semantics: a send on the capacity-1 `chan` needs a
free slot, a select branch needs its channel ready. -/
inductive Step (env : Env) : St → St → Prop
  | ctxFire (s : St) (h : s.ctxFired = false) :
      Step env s { s with ctxFired := true }
  | wLock (s : St) (h : s.wpc = .lockAcq) (hl : s.lockHeld = none) :
      Step env s { s with wpc := .callHandler, lockHeld := some .worker }
  | wCallRet (s : St) (r : GoAny) (e : Option GoErr)
      (h : s.wpc = .callHandler) (hres : env.handlerRes = .ret r e) :
      Step env s { s with wpc := .writeResp r e }
  | wCallPanic (s : St) (v : GoAny)
      (h : s.wpc = .callHandler) (hres : env.handlerRes = .panics v) :
      Step env s { s with wpc := .unlockPanic v }
  | wWriteResp (s : St) (r : GoAny) (e : Option GoErr)
      (h : s.wpc = .writeResp r e) :
      Step env s { s with
        wpc := .writeErr e, respSlot := r,
        respWritten := true, respWrites := s.respWrites + 1 }
  | wWriteErr (s : St) (e : Option GoErr) (h : s.wpc = .writeErr e) :
      Step env s { s with
        wpc := .closeDone, errSlot := e,
        errWritten := true, errWrites := s.errWrites + 1 }
  | wClose (s : St) (h : s.wpc = .closeDone) :
      Step env s { s with wpc := .unlockNormal, doneClosed := true }
  | wUnlockNormal (s : St) (h : s.wpc = .unlockNormal) :
      Step env s { s with wpc := .exited, lockHeld := none }
  | wUnlockPanic (s : St) (v : GoAny) (h : s.wpc = .unlockPanic v) :
      Step env s { s with wpc := .recoverStep v, lockHeld := none }
  | wRecoverSome (s : St) (v : GoAny) (h : s.wpc = .recoverStep v)
      (hv : v ≠ .nil) :
      Step env s { s with wpc := .sendFault (panicMessage v env.stack) }
  | wRecoverNil (s : St) (h : s.wpc = .recoverStep .nil) :
      Step env s { s with wpc := .exited }
  | wSend (s : St) (msg : String) (h : s.wpc = .sendFault msg)
      (hc : s.chan.length < 1) :
      Step env s { s with
        wpc := .exited, chan := s.chan ++ [msg],
        sendCount := s.sendCount + 1 }
  | sRelay (s : St) (msg : String) (rest : List String)
      (h : s.spc = .selecting) (hc : s.chan = msg :: rest) :
      Step env s { s with
        spc := .finished, chan := rest,
        outcome := some (.faulted msg), decidedBy := some .relay }
  | sDone (s : St) (h : s.spc = .selecting) (hd : s.doneClosed = true) :
      Step env s { s with spc := .lockAcqDone }
  | sCtx (s : St) (h : s.spc = .selecting) (hf : s.ctxFired = true) :
      Step env s { s with
        spc := .finished,
        outcome := some (.ret .nil (some (mapCtxErr (ctxErrOf env.ctxReason)))),
        decidedBy := some .ctxDone }
  | sLock (s : St) (h : s.spc = .lockAcqDone) (hl : s.lockHeld = none) :
      Step env s { s with spc := .readResp, lockHeld := some .supervisor }
  | sReadResp (s : St) (h : s.spc = .readResp) :
      Step env s { s with spc := .readErr s.respSlot }
  | sReadErr (s : St) (r : GoAny) (h : s.spc = .readErr r) :
      Step env s { s with
        spc := .finished, lockHeld := none,
        readCount := s.readCount + 1,
        outcome := some (.ret r s.errSlot),
        decidedBy := some .completion }

/-- States reachable from the start of the invocation. -/
def Reachable (env : Env) (s : St) : Prop :=
  Relation.ReflTransGen (Step env) initSt s

/- ### The inductive invariant -/

/-- The inductive invariant of one invocation, relating the two program
counters, the mutex, the result slots, the channels and the recorded
outcome. -/
structure Inv (env : Env) (s : St) : Prop where
  lockW : s.lockHeld = some Owner.worker ↔ s.wpc.inCrit = true
  lockS : s.lockHeld = some Owner.supervisor ↔ s.spc.inCrit = true
  preW : s.wpc = WPc.lockAcq ∨ s.wpc = WPc.callHandler →
    s.respWritten = false ∧ s.errWritten = false
  wrPc : ∀ r e, s.wpc = WPc.writeResp r e →
    env.handlerRes = HandlerOutcome.ret r e ∧ s.respWritten = false ∧
    s.errWritten = false
  wePc : ∀ e, s.wpc = WPc.writeErr e →
    (∃ r, env.handlerRes = HandlerOutcome.ret r e ∧ s.respSlot = r) ∧
    s.respWritten = true ∧ s.errWritten = false
  respW : s.respWritten = true →
    ∃ r e, env.handlerRes = HandlerOutcome.ret r e ∧ s.respSlot = r
  errW : s.errWritten = true → s.respWritten = true ∧
    ∃ r e, env.handlerRes = HandlerOutcome.ret r e ∧ s.errSlot = e
  respCnt : s.respWrites = if s.respWritten then 1 else 0
  errCnt : s.errWrites = if s.errWritten then 1 else 0
  closePc : s.wpc = WPc.closeDone ∨ s.wpc = WPc.unlockNormal →
    s.respWritten = true ∧ s.errWritten = true
  doneW : s.doneClosed = true → s.respWritten = true ∧ s.errWritten = true
  panicPc : ∀ v, s.wpc = WPc.unlockPanic v ∨ s.wpc = WPc.recoverStep v →
    env.handlerRes = HandlerOutcome.panics v
  sendPc : ∀ msg, s.wpc = WPc.sendFault msg →
    ∃ v, env.handlerRes = HandlerOutcome.panics v ∧ v ≠ GoAny.nil ∧
      msg = panicMessage v env.stack
  preSend : s.wpc ≠ WPc.exited → s.chan = [] ∧ s.sendCount = 0
  chanMsgs : ∀ msg ∈ s.chan,
    ∃ v, env.handlerRes = HandlerOutcome.panics v ∧ v ≠ GoAny.nil ∧
      msg = panicMessage v env.stack
  sendLe : s.sendCount ≤ 1
  sendPos : 1 ≤ s.sendCount →
    ∃ v, env.handlerRes = HandlerOutcome.panics v ∧ v ≠ GoAny.nil
  sDonePc : s.spc = SPc.lockAcqDone ∨ s.spc = SPc.readResp ∨
    (∃ r, s.spc = SPc.readErr r) → s.doneClosed = true
  readErrPc : ∀ r, s.spc = SPc.readErr r → r = s.respSlot
  readCnt : s.readCount = if s.decidedBy = some Branch.completion then 1 else 0
  finDec : s.spc = SPc.finished ↔ s.decidedBy.isSome
  outDec : s.outcome.isSome ↔ s.decidedBy.isSome
  decRelay : s.decidedBy = some Branch.relay →
    ∃ v, env.handlerRes = HandlerOutcome.panics v ∧ v ≠ GoAny.nil ∧
      s.outcome = some (Outcome.faulted (panicMessage v env.stack))
  decComp : s.decidedBy = some Branch.completion → s.doneClosed = true ∧
    ∃ r e, env.handlerRes = HandlerOutcome.ret r e ∧
      s.outcome = some (Outcome.ret r e)
  decCtx : s.decidedBy = some Branch.ctxDone → s.ctxFired = true ∧
    s.outcome = some (Outcome.ret GoAny.nil
      (some (mapCtxErr (ctxErrOf env.ctxReason))))

/-- The invariant holds at the start of the invocation. -/
theorem inv_initSt (env : Env) : Inv env initSt := by
  constructor <;> simp [initSt, WPc.inCrit, SPc.inCrit]

/-- Before any select branch has decided, the decision ghost is empty. -/
theorem decidedBy_none_of_not_finished {env : Env} {s : St} (hInv : Inv env s)
    (h : s.spc ≠ SPc.finished) : s.decidedBy = none := by
  cases hq : s.decidedBy with
  | none => rfl
  | some b => exact absurd (hInv.finDec.mpr (by rw [hq]; rfl)) h

/-- If the supervisor does not hold the mutex, it is not in its critical
section. -/
theorem spc_not_crit {env : Env} {s : St} (hInv : Inv env s)
    (h : s.lockHeld ≠ some Owner.supervisor) : s.spc.inCrit = false := by
  cases hq : s.spc.inCrit
  · rfl
  · exact absurd (hInv.lockS.mpr hq) h

/-- If the worker does not hold the mutex, it is not in its critical
section. -/
theorem wpc_not_crit {env : Env} {s : St} (hInv : Inv env s)
    (h : s.lockHeld ≠ some Owner.worker) : s.wpc.inCrit = false := by
  cases hq : s.wpc.inCrit
  · rfl
  · exact absurd (hInv.lockW.mpr hq) h

/-- One interleaved step preserves the invariant. -/
theorem inv_step {env : Env} {s s' : St} (hInv : Inv env s)
    (hs : Step env s s') : Inv env s' := by
  cases hs with
  | ctxFire ht =>
      exact { hInv with decCtx := fun hd => ⟨rfl, (hInv.decCtx hd).2⟩ }
  | wLock ht hl =>
      have hnc : s.spc.inCrit = false := spc_not_crit hInv (by rw [hl]; simp)
      exact { hInv with
        lockW := by simp [WPc.inCrit]
        lockS := by simp [hnc]
        preW := fun _ => hInv.preW (Or.inl ht)
        wrPc := fun r e h => nomatch h
        wePc := fun e h => nomatch h
        closePc := fun h => by rcases h with h | h <;> exact nomatch h
        panicPc := fun v hv => by rcases hv with h | h <;> exact nomatch h
        sendPc := fun msg h => nomatch h
        preSend := fun _ => hInv.preSend (by simp [ht]) }
  | wCallRet r e ht hres =>
      exact { hInv with
        lockW := by
          have h2 := hInv.lockW
          rw [ht] at h2
          simpa [WPc.inCrit] using h2
        preW := fun h => by rcases h with h | h <;> exact nomatch h
        wrPc := fun r' e' h => by
          injection h with h1 h2
          subst h1; subst h2
          exact ⟨hres, (hInv.preW (Or.inr ht)).1, (hInv.preW (Or.inr ht)).2⟩
        wePc := fun e' h => nomatch h
        closePc := fun h => by rcases h with h | h <;> exact nomatch h
        panicPc := fun v hv => by rcases hv with h | h <;> exact nomatch h
        sendPc := fun msg h => nomatch h
        preSend := fun _ => hInv.preSend (by simp [ht]) }
  | wCallPanic v ht hres =>
      exact { hInv with
        lockW := by
          have h2 := hInv.lockW
          rw [ht] at h2
          simpa [WPc.inCrit] using h2
        preW := fun h => by rcases h with h | h <;> exact nomatch h
        wrPc := fun r' e' h => nomatch h
        wePc := fun e' h => nomatch h
        closePc := fun h => by rcases h with h | h <;> exact nomatch h
        panicPc := fun v' hv => by
          rcases hv with h | h
          · injection h with h1; subst h1; exact hres
          · exact nomatch h
        sendPc := fun msg h => nomatch h
        preSend := fun _ => hInv.preSend (by simp [ht]) }
  | wWriteResp r e ht =>
      have hw := hInv.wrPc r e ht
      exact { hInv with
        lockW := by
          have h2 := hInv.lockW
          rw [ht] at h2
          simpa [WPc.inCrit] using h2
        preW := fun h => by rcases h with h | h <;> exact nomatch h
        wrPc := fun r' e' h => nomatch h
        wePc := fun e' h => by
          injection h with h1
          subst h1
          exact ⟨⟨r, hw.1, rfl⟩, rfl, hw.2.2⟩
        respW := fun _ => ⟨r, e, hw.1, rfl⟩
        errW := fun he => absurd he (by simp [hw.2.2])
        respCnt := by
          have h0 := hInv.respCnt
          rw [hw.2.1] at h0
          simp at h0
          simp [h0]
        closePc := fun h => by rcases h with h | h <;> exact nomatch h
        doneW := fun hd => absurd (hInv.doneW hd).2 (by simp [hw.2.2])
        panicPc := fun v hv => by rcases hv with h | h <;> exact nomatch h
        sendPc := fun msg h => nomatch h
        preSend := fun _ => hInv.preSend (by simp [ht])
        readErrPc := fun r' hr => by
          have h1 : s.lockHeld = some Owner.worker :=
            hInv.lockW.mpr (by rw [ht]; rfl)
          have h2 : s.lockHeld = some Owner.supervisor :=
            hInv.lockS.mpr (by rw [show s.spc = SPc.readErr r' from hr]; rfl)
          rw [h1] at h2
          exact absurd h2 (by simp) }
  | wWriteErr e ht =>
      have hw := hInv.wePc e ht
      exact { hInv with
        lockW := by
          have h2 := hInv.lockW
          rw [ht] at h2
          simpa [WPc.inCrit] using h2
        preW := fun h => by rcases h with h | h <;> exact nomatch h
        wrPc := fun r' e' h => nomatch h
        wePc := fun e' h => nomatch h
        errW := fun _ => by
          obtain ⟨⟨r, hres, hslot⟩, hrw, hew⟩ := hw
          exact ⟨hrw, r, e, hres, rfl⟩
        errCnt := by
          have h0 := hInv.errCnt
          rw [hw.2.2] at h0
          simp at h0
          simp [h0]
        closePc := fun _ => ⟨hw.2.1, rfl⟩
        doneW := fun hd => absurd (hInv.doneW hd).2 (by simp [hw.2.2])
        panicPc := fun v hv => by rcases hv with h | h <;> exact nomatch h
        sendPc := fun msg h => nomatch h
        preSend := fun _ => hInv.preSend (by simp [ht]) }
  | wClose ht =>
      have hc := hInv.closePc (Or.inl ht)
      exact { hInv with
        lockW := by
          have h2 := hInv.lockW
          rw [ht] at h2
          simpa [WPc.inCrit] using h2
        preW := fun h => by rcases h with h | h <;> exact nomatch h
        wrPc := fun r' e' h => nomatch h
        wePc := fun e' h => nomatch h
        closePc := fun _ => hc
        doneW := fun _ => hc
        panicPc := fun v hv => by rcases hv with h | h <;> exact nomatch h
        sendPc := fun msg h => nomatch h
        preSend := fun _ => hInv.preSend (by simp [ht])
        sDonePc := fun _ => rfl
        decComp := fun hd => ⟨rfl, (hInv.decComp hd).2⟩ }
  | wUnlockNormal ht =>
      have hlw : s.lockHeld = some Owner.worker :=
        hInv.lockW.mpr (by rw [ht]; rfl)
      have hnc : s.spc.inCrit = false := spc_not_crit hInv (by rw [hlw]; simp)
      exact { hInv with
        lockW := by simp [WPc.inCrit]
        lockS := by simp [hnc]
        preW := fun h => by rcases h with h | h <;> exact nomatch h
        wrPc := fun r' e' h => nomatch h
        wePc := fun e' h => nomatch h
        closePc := fun h => by rcases h with h | h <;> exact nomatch h
        panicPc := fun v hv => by rcases hv with h | h <;> exact nomatch h
        sendPc := fun msg h => nomatch h
        preSend := fun h => absurd rfl h }
  | wUnlockPanic v ht =>
      have hlw : s.lockHeld = some Owner.worker :=
        hInv.lockW.mpr (by rw [ht]; rfl)
      have hnc : s.spc.inCrit = false := spc_not_crit hInv (by rw [hlw]; simp)
      exact { hInv with
        lockW := by simp [WPc.inCrit]
        lockS := by simp [hnc]
        preW := fun h => by rcases h with h | h <;> exact nomatch h
        wrPc := fun r' e' h => nomatch h
        wePc := fun e' h => nomatch h
        closePc := fun h => by rcases h with h | h <;> exact nomatch h
        panicPc := fun v' hv => by
          rcases hv with h | h
          · exact nomatch h
          · injection h with h1; subst h1; exact hInv.panicPc v (Or.inl ht)
        sendPc := fun msg h => nomatch h
        preSend := fun _ => hInv.preSend (by simp [ht]) }
  | wRecoverSome v ht hv =>
      exact { hInv with
        lockW := by
          have h2 := hInv.lockW
          rw [ht] at h2
          simpa [WPc.inCrit] using h2
        preW := fun h => by rcases h with h | h <;> exact nomatch h
        wrPc := fun r' e' h => nomatch h
        wePc := fun e' h => nomatch h
        closePc := fun h => by rcases h with h | h <;> exact nomatch h
        panicPc := fun v' hv' => by rcases hv' with h | h <;> exact nomatch h
        sendPc := fun msg h => by
          injection h with h1
          subst h1
          exact ⟨v, hInv.panicPc v (Or.inr ht), hv, rfl⟩
        preSend := fun _ => hInv.preSend (by simp [ht]) }
  | wRecoverNil ht =>
      exact { hInv with
        lockW := by
          have h2 := hInv.lockW
          rw [ht] at h2
          simpa [WPc.inCrit] using h2
        preW := fun h => by rcases h with h | h <;> exact nomatch h
        wrPc := fun r' e' h => nomatch h
        wePc := fun e' h => nomatch h
        closePc := fun h => by rcases h with h | h <;> exact nomatch h
        panicPc := fun v' hv => by rcases hv with h | h <;> exact nomatch h
        sendPc := fun msg h => nomatch h
        preSend := fun h => absurd rfl h }
  | wSend msg ht hc =>
      have hp := hInv.preSend (by simp [ht])
      have hm := hInv.sendPc msg ht
      exact { hInv with
        lockW := by
          have h2 := hInv.lockW
          rw [ht] at h2
          simpa [WPc.inCrit] using h2
        preW := fun h => by rcases h with h | h <;> exact nomatch h
        wrPc := fun r' e' h => nomatch h
        wePc := fun e' h => nomatch h
        closePc := fun h => by rcases h with h | h <;> exact nomatch h
        panicPc := fun v' hv => by rcases hv with h | h <;> exact nomatch h
        sendPc := fun msg' h => nomatch h
        preSend := fun h => absurd rfl h
        chanMsgs := fun m hmem => by
          rw [hp.1] at hmem
          simp at hmem
          subst hmem
          exact hm
        sendLe := by simp [hp.2]
        sendPos := fun _ => by
          obtain ⟨v, h1, h2, _⟩ := hm
          exact ⟨v, h1, h2⟩ }
  | sRelay msg rest ht hc =>
      have hm := hInv.chanMsgs msg (by rw [hc]; exact List.mem_cons_self msg rest)
      have hdec : s.decidedBy = none :=
        decidedBy_none_of_not_finished hInv (by rw [ht]; simp)
      exact { hInv with
        lockS := by
          have h2 := hInv.lockS
          rw [ht] at h2
          simpa [SPc.inCrit] using h2
        preSend := fun h => by
          have h0 := (hInv.preSend h).1
          rw [hc] at h0
          exact absurd h0 (by simp)
        chanMsgs := fun m hmem =>
          hInv.chanMsgs m (by rw [hc]; exact List.mem_cons_of_mem msg hmem)
        sDonePc := fun h => by rcases h with h | h | ⟨r, h⟩ <;> exact nomatch h
        readErrPc := fun r h => nomatch h
        readCnt := by
          have h0 := hInv.readCnt
          rw [hdec] at h0
          simp at h0
          simp [h0]
        finDec := by simp
        outDec := by simp
        decRelay := fun _ => by
          obtain ⟨v, h1, h2, h3⟩ := hm
          exact ⟨v, h1, h2, by rw [h3]⟩
        decComp := fun h => nomatch h
        decCtx := fun h => nomatch h }
  | sDone ht hd =>
      have hdec : s.decidedBy = none :=
        decidedBy_none_of_not_finished hInv (by rw [ht]; simp)
      exact { hInv with
        lockS := by
          have h2 := hInv.lockS
          rw [ht] at h2
          simpa [SPc.inCrit] using h2
        sDonePc := fun _ => hd
        readErrPc := fun r h => nomatch h
        finDec := by simp [hdec] }
  | sCtx ht hf =>
      have hdec : s.decidedBy = none :=
        decidedBy_none_of_not_finished hInv (by rw [ht]; simp)
      exact { hInv with
        lockS := by
          have h2 := hInv.lockS
          rw [ht] at h2
          simpa [SPc.inCrit] using h2
        sDonePc := fun h => by rcases h with h | h | ⟨r, h⟩ <;> exact nomatch h
        readErrPc := fun r h => nomatch h
        readCnt := by
          have h0 := hInv.readCnt
          rw [hdec] at h0
          simp at h0
          simp [h0]
        finDec := by simp
        outDec := by simp
        decRelay := fun h => nomatch h
        decComp := fun h => nomatch h
        decCtx := fun _ => ⟨hf, rfl⟩ }
  | sLock ht hl =>
      have hnw : s.wpc.inCrit = false := wpc_not_crit hInv (by rw [hl]; simp)
      have hdec : s.decidedBy = none :=
        decidedBy_none_of_not_finished hInv (by rw [ht]; simp)
      exact { hInv with
        lockW := by simp [hnw]
        lockS := by simp [SPc.inCrit]
        sDonePc := fun _ => hInv.sDonePc (Or.inl ht)
        readErrPc := fun r h => nomatch h
        finDec := by simp [hdec] }
  | sReadResp ht =>
      have hdec : s.decidedBy = none :=
        decidedBy_none_of_not_finished hInv (by rw [ht]; simp)
      exact { hInv with
        lockS := by
          have h2 := hInv.lockS
          rw [ht] at h2
          simpa [SPc.inCrit] using h2
        sDonePc := fun _ => hInv.sDonePc (Or.inr (Or.inl ht))
        readErrPc := fun r h => by injection h with h1; exact h1.symm
        finDec := by simp [hdec] }
  | sReadErr r ht =>
      have hd : s.doneClosed = true := hInv.sDonePc (Or.inr (Or.inr ⟨r, ht⟩))
      have hw := hInv.doneW hd
      have hre := hInv.respW hw.1
      have hee := hInv.errW hw.2
      have hdec : s.decidedBy = none :=
        decidedBy_none_of_not_finished hInv (by rw [ht]; simp)
      have hls : s.lockHeld = some Owner.supervisor :=
        hInv.lockS.mpr (by rw [ht]; rfl)
      have hnw : s.wpc.inCrit = false := wpc_not_crit hInv (by rw [hls]; simp)
      have hr : r = s.respSlot := hInv.readErrPc r ht
      exact { hInv with
        lockW := by simp [hnw]
        lockS := by simp [SPc.inCrit]
        sDonePc := fun h => by rcases h with h | h | ⟨r', h⟩ <;> exact nomatch h
        readErrPc := fun r' h => nomatch h
        readCnt := by
          have h0 := hInv.readCnt
          rw [hdec] at h0
          simp at h0
          simp [h0]
        finDec := by simp
        outDec := by simp
        decRelay := fun h => nomatch h
        decCtx := fun h => nomatch h
        decComp := fun _ => by
          refine ⟨hd, ?_⟩
          obtain ⟨r0, e0, hres0, hslot⟩ := hre
          obtain ⟨_, r1, e1, hres1, hslot1⟩ := hee
          rw [hres0] at hres1
          injection hres1 with hA hB
          refine ⟨r0, e0, hres0, ?_⟩
          rw [hr, hslot, hslot1, hB] }

/-- Every reachable state satisfies the invariant. -/
theorem reachable_inv {env : Env} {s : St} (h : Reachable env s) : Inv env s := by
  induction h with
  | refl => exact inv_initSt env
  | tail _ hstep ih => exact inv_step ih hstep

/-- Once a select branch has decided the invocation, no single step can
change the decision or the recorded outcome. -/
theorem step_preserves_decision {env : Env} {s s' : St} (hInv : Inv env s)
    (hs : Step env s s') {b : Branch} (hd : s.decidedBy = some b) :
    s'.decidedBy = some b ∧ s'.outcome = s.outcome := by
  have hfin : s.spc = SPc.finished := hInv.finDec.mpr (by rw [hd]; rfl)
  cases hs with
  | ctxFire ht => exact ⟨hd, rfl⟩
  | wLock ht hl => exact ⟨hd, rfl⟩
  | wCallRet r e ht hres => exact ⟨hd, rfl⟩
  | wCallPanic v ht hres => exact ⟨hd, rfl⟩
  | wWriteResp r e ht => exact ⟨hd, rfl⟩
  | wWriteErr e ht => exact ⟨hd, rfl⟩
  | wClose ht => exact ⟨hd, rfl⟩
  | wUnlockNormal ht => exact ⟨hd, rfl⟩
  | wUnlockPanic v ht => exact ⟨hd, rfl⟩
  | wRecoverSome v ht hv => exact ⟨hd, rfl⟩
  | wRecoverNil ht => exact ⟨hd, rfl⟩
  | wSend msg ht hc => exact ⟨hd, rfl⟩
  | sRelay msg rest ht hc => rw [ht] at hfin; exact nomatch hfin
  | sDone ht hdc => rw [ht] at hfin; exact nomatch hfin
  | sCtx ht hf => rw [ht] at hfin; exact nomatch hfin
  | sLock ht hl => rw [ht] at hfin; exact nomatch hfin
  | sReadResp ht => rw [ht] at hfin; exact nomatch hfin
  | sReadErr r ht => rw [ht] at hfin; exact nomatch hfin

/-- Once a select branch has decided the invocation, any further steps
leave the decision and the recorded outcome untouched. -/
theorem steps_preserve_decision {env : Env} {s s' : St}
    (hr : Reachable env s) (hs : Relation.ReflTransGen (Step env) s s')
    {b : Branch} (hd : s.decidedBy = some b) :
    s'.decidedBy = some b ∧ s'.outcome = s.outcome := by
  induction hs with
  | refl => exact ⟨hd, rfl⟩
  | tail hsteps hstep ih =>
      obtain ⟨h1, h2⟩ := ih
      obtain ⟨h3, h4⟩ :=
        step_preserves_decision (reachable_inv (hr.trans hsteps)) hstep h1
      exact ⟨h3, h4.trans h2⟩

/- ### Claim theorems -/

/-- C1: for every invocation in which the handler returns `(r, e)` and the
call context has not fired (no deadline, no cancellation) by the time an
outcome is recorded, the wrapper returned by `UnaryTimeoutInterceptor`
returns exactly the handler's `(response, error)` pair, unchanged. -/
theorem unary_timeout_passthrough
    (env : Env) (s : St) (r : GoAny) (e : Option GoErr) (o : Outcome)
    (hres : env.handlerRes = HandlerOutcome.ret r e)
    (hreach : Reachable env s)
    (ho : s.outcome = some o)
    (hctx : s.ctxFired = false) :
    o = Outcome.ret r e := by
  have hInv := reachable_inv hreach
  have hsome : s.decidedBy.isSome := hInv.outDec.mp (by rw [ho]; rfl)
  cases hq : s.decidedBy with
  | none => rw [hq] at hsome; exact nomatch hsome
  | some b =>
    cases b with
    | relay =>
        obtain ⟨v, h1, _, _⟩ := hInv.decRelay hq
        rw [hres] at h1
        exact nomatch h1
    | completion =>
        obtain ⟨_, r', e', h1, h2⟩ := hInv.decComp hq
        rw [hres] at h1
        injection h1 with hA hB
        rw [ho] at h2
        injection h2 with h3
        rw [h3, ← hA, ← hB]
    | ctxDone =>
        have h1 := (hInv.decCtx hq).1
        rw [hctx] at h1
        exact nomatch h1

/-- Environment for the completion-path trace: the handler returns
`("ok", nil)`, the deadline would report DeadlineExceeded, the stack
capture is irrelevant. -/
def env1 : Env :=
  { handlerRes := .ret (.mk "ok") none
    ctxReason := .deadlineExceeded
    stack := "stk" }

/-- The state at the end of the completion-path trace. -/
def c1St : St :=
  { wpc := .exited
    spc := .finished
    lockHeld := none
    respSlot := .mk "ok"
    errSlot := none
    respWritten := true
    errWritten := true
    respWrites := 1
    errWrites := 1
    doneClosed := true
    chan := []
    sendCount := 0
    readCount := 1
    ctxFired := false
    outcome := some (.ret (.mk "ok") none)
    decidedBy := some .completion }

/-- The completion-path trace: the worker runs to completion, then the
supervisor takes the `<-done` branch and reads the pair under the lock. -/
theorem c1_reach : Reachable env1 c1St := by
  have h0 : Reachable env1 initSt := Relation.ReflTransGen.refl
  have h1 := h0.tail (Step.wLock initSt rfl rfl)
  have h2 := h1.tail (Step.wCallRet _ (GoAny.mk "ok") none rfl rfl)
  have h3 := h2.tail (Step.wWriteResp _ (GoAny.mk "ok") none rfl)
  have h4 := h3.tail (Step.wWriteErr _ none rfl)
  have h5 := h4.tail (Step.wClose _ rfl)
  have h6 := h5.tail (Step.wUnlockNormal _ rfl)
  have h7 := h6.tail (Step.sDone _ rfl rfl)
  have h8 := h7.tail (Step.sLock _ rfl rfl)
  have h9 := h8.tail (Step.sReadResp _ rfl)
  exact h9.tail (Step.sReadErr _ (GoAny.mk "ok") rfl)

/-- Witness for C1 on the concrete completion-path trace. -/
theorem unary_timeout_passthrough_witness :
    env1.handlerRes = HandlerOutcome.ret (GoAny.mk "ok") none ∧
    c1St.outcome = some (Outcome.ret (GoAny.mk "ok") none) ∧
    c1St.ctxFired = false ∧
    Outcome.ret (GoAny.mk "ok") none = Outcome.ret (GoAny.mk "ok") none :=
  ⟨rfl, rfl, rfl,
    unary_timeout_passthrough env1 c1St (GoAny.mk "ok") none
      (Outcome.ret (GoAny.mk "ok") none) rfl c1_reach rfl rfl⟩

/-- C2: for every invocation in which the handler has not completed
(`done` not closed) and the wrapper nevertheless returned a normal
`(response, error)` pair, the call context had fired, the response is
nil, and the error is the gRPC status error with code `DeadlineExceeded`
for a deadline and `Canceled` for a cancellation; the handler's
in-progress result is not returned. -/
theorem unary_timeout_ctx_done_error
    (env : Env) (s : St) (resp : GoAny) (err : Option GoErr)
    (hreach : Reachable env s)
    (hdone : s.doneClosed = false)
    (ho : s.outcome = some (Outcome.ret resp err)) :
    s.ctxFired = true ∧ resp = GoAny.nil ∧
    err = some (mapCtxErr (ctxErrOf env.ctxReason)) ∧
    (env.ctxReason = CtxReason.deadlineExceeded →
      err = some (GoErr.statusErr GrpcCode.deadlineExceeded
        "context deadline exceeded")) ∧
    (env.ctxReason = CtxReason.canceled →
      err = some (GoErr.statusErr GrpcCode.canceled "context canceled")) := by
  have hInv := reachable_inv hreach
  have hsome : s.decidedBy.isSome := hInv.outDec.mp (by rw [ho]; rfl)
  cases hq : s.decidedBy with
  | none => rw [hq] at hsome; exact nomatch hsome
  | some b =>
    cases b with
    | relay =>
        obtain ⟨v, _, _, h3⟩ := hInv.decRelay hq
        rw [ho] at h3
        injection h3 with h4
        exact nomatch h4
    | completion =>
        have h1 := (hInv.decComp hq).1
        rw [hdone] at h1
        exact nomatch h1
    | ctxDone =>
        obtain ⟨hf, hout⟩ := hInv.decCtx hq
        rw [ho] at hout
        injection hout with h4
        injection h4 with hA hB
        refine ⟨hf, hA, hB, ?_, ?_⟩
        · intro hr
          rw [hr] at hB
          exact hB.trans rfl
        · intro hr
          rw [hr] at hB
          exact hB.trans rfl

/-- Environment for the context-done trace: the inbound context is
canceled before the worker does anything. -/
def env2 : Env :=
  { handlerRes := .ret (.mk "ok") none
    ctxReason := .canceled
    stack := "stk" }

/-- The state after the context fires and the select takes the
`<-ctx.Done()` branch, the worker having run not at all. -/
def c2St : St :=
  { initSt with
    spc := .finished
    ctxFired := true
    outcome := some (.ret .nil
      (some (.statusErr .canceled "context canceled")))
    decidedBy := some .ctxDone }

/-- The context-done trace: the context fires, then the select returns. -/
theorem c2_reach : Reachable env2 c2St := by
  have h0 : Reachable env2 initSt := Relation.ReflTransGen.refl
  have h1 := h0.tail (Step.ctxFire initSt rfl)
  exact h1.tail (Step.sCtx _ rfl rfl)

/-- Witness for C2 on the concrete cancellation trace. -/
theorem unary_timeout_ctx_done_error_witness :
    c2St.doneClosed = false ∧
    c2St.outcome = some (Outcome.ret GoAny.nil
      (some (GoErr.statusErr GrpcCode.canceled "context canceled"))) ∧
    c2St.ctxFired = true ∧
    GoAny.nil = GoAny.nil :=
  ⟨rfl, rfl,
    (unary_timeout_ctx_done_error env2 c2St GoAny.nil
      (some (GoErr.statusErr GrpcCode.canceled "context canceled"))
      c2_reach rfl rfl).1,
    rfl⟩

/-- C3: for every invocation in which the handler panics with a non-nil
value, the completion marker `done` is never closed, the completion
branch never decides the invocation, any outcome decided while the
context has not fired is a re-raised fault, and the re-raised value is
the formatted panic description followed by `"\n\n"` and the non-empty
trimmed stack trace, so the description is a substring of it. -/
theorem unary_timeout_fault_relay
    (env : Env) (s : St) (v : GoAny)
    (hres : env.handlerRes = HandlerOutcome.panics v)
    (hv : v ≠ GoAny.nil)
    (hstk : trimSpace env.stack ≠ "")
    (hreach : Reachable env s) :
    s.doneClosed = false ∧
    s.decidedBy ≠ some Branch.completion ∧
    (∀ b, s.decidedBy = some b → s.ctxFired = false → b = Branch.relay) ∧
    (∀ msg, s.outcome = some (Outcome.faulted msg) →
      msg = formatPlusV v ++ "\n\n" ++ trimSpace env.stack ∧
      trimSpace env.stack ≠ "" ∧
      (∃ rest, msg = formatPlusV v ++ rest ∧ rest ≠ "")) := by
  have hInv := reachable_inv hreach
  have hnd : s.doneClosed = false := by
    cases hq : s.doneClosed
    · rfl
    · obtain ⟨r, e, h1, _⟩ := hInv.respW (hInv.doneW hq).1
      rw [hres] at h1
      exact nomatch h1
  have hnc : s.decidedBy ≠ some Branch.completion := by
    intro hq
    obtain ⟨_, r, e, h1, _⟩ := hInv.decComp hq
    rw [hres] at h1
    exact nomatch h1
  refine ⟨hnd, hnc, ?_, ?_⟩
  · intro b hq hctx
    cases b with
    | relay => rfl
    | completion => exact absurd hq hnc
    | ctxDone =>
        have h1 := (hInv.decCtx hq).1
        rw [hctx] at h1
        exact nomatch h1
  · intro msg ho
    have hsome : s.decidedBy.isSome := hInv.outDec.mp (by rw [ho]; rfl)
    cases hq : s.decidedBy with
    | none => rw [hq] at hsome; exact nomatch hsome
    | some b =>
      cases b with
      | relay =>
          obtain ⟨v', h1, _, h3⟩ := hInv.decRelay hq
          rw [hres] at h1
          injection h1 with hA
          rw [ho] at h3
          injection h3 with h4
          injection h4 with h5
          subst hA
          refine ⟨h5, hstk, "\n\n" ++ trimSpace env.stack, ?_, ?_⟩
          · rw [h5]
            simp [panicMessage, String.append_assoc]
          · intro hh
            have h2 := congrArg String.length hh
            rw [String.length_append] at h2
            have h3 : ("\n\n" : String).length = 2 := rfl
            have h4 : ("" : String).length = 0 := rfl
            omega
      | completion => exact absurd hq hnc
      | ctxDone =>
          have h2 := (hInv.decCtx hq).2
          rw [ho] at h2
          injection h2 with h4
          exact nomatch h4

/-- Environment for the fault trace: the handler panics with `"boom"`. -/
def env3 : Env :=
  { handlerRes := .panics (.mk "boom")
    ctxReason := .deadlineExceeded
    stack := "goroutine 1 [running]: example" }

/-- The state after the worker panics, delivers the fault, and the select
re-raises it. -/
def c3St : St :=
  { initSt with
    wpc := .exited
    spc := .finished
    sendCount := 1
    outcome := some (.faulted (panicMessage (.mk "boom") env3.stack))
    decidedBy := some .relay }

/-- The fault trace: the worker locks, the handler panics, the deferred
unlock and recovery run, the fault is sent and then received. -/
theorem c3_reach : Reachable env3 c3St := by
  have h0 : Reachable env3 initSt := Relation.ReflTransGen.refl
  have h1 := h0.tail (Step.wLock initSt rfl rfl)
  have h2 := h1.tail (Step.wCallPanic _ (GoAny.mk "boom") rfl rfl)
  have h3 := h2.tail (Step.wUnlockPanic _ (GoAny.mk "boom") rfl)
  have h4 := h3.tail (Step.wRecoverSome _ (GoAny.mk "boom") rfl
    (fun h => nomatch h))
  have h5 := h4.tail (Step.wSend _ _ rfl (by simp [initSt]))
  exact h5.tail (Step.sRelay _ _ [] rfl rfl)

/-- Witness for C3 on the concrete fault trace. -/
theorem unary_timeout_fault_relay_witness :
    env3.handlerRes = HandlerOutcome.panics (GoAny.mk "boom") ∧
    GoAny.mk "boom" ≠ GoAny.nil ∧
    trimSpace env3.stack ≠ "" ∧
    c3St.doneClosed = false ∧
    c3St.decidedBy ≠ some Branch.completion := by
  have hv3 : GoAny.mk "boom" ≠ GoAny.nil := fun hh => nomatch hh
  have hstk3 : trimSpace env3.stack ≠ "" := by decide
  have h := unary_timeout_fault_relay env3 c3St (GoAny.mk "boom") rfl
    hv3 hstk3 c3_reach
  exact ⟨rfl, hv3, hstk3, h.1, h.2.1⟩

/-- C7: for every invocation, a decided outcome is terminal — no further
steps change the decided branch or the recorded outcome, the select is
finished exactly when one branch has decided, a finished invocation has
exactly one decided branch and an outcome, and before any decision there
is no outcome: never zero outcomes, never more than one. -/
theorem unary_timeout_exactly_one_outcome
    (env : Env) (s s' : St)
    (hreach : Reachable env s)
    (hsteps : Relation.ReflTransGen (Step env) s s') :
    (∀ b, s.decidedBy = some b →
      s'.decidedBy = some b ∧ s'.outcome = s.outcome ∧
      s'.spc = SPc.finished) ∧
    (s'.spc = SPc.finished →
      ∃ o b, s'.outcome = some o ∧ s'.decidedBy = some b) ∧
    (s'.decidedBy = none → s'.outcome = none ∧ s'.spc ≠ SPc.finished) := by
  have hInv' := reachable_inv (hreach.trans hsteps)
  refine ⟨?_, ?_, ?_⟩
  · intro b hd
    obtain ⟨h1, h2⟩ := steps_preserve_decision hreach hsteps hd
    exact ⟨h1, h2, hInv'.finDec.mpr (by rw [h1]; rfl)⟩
  · intro hfin
    have hsome := hInv'.finDec.mp hfin
    cases hq : s'.decidedBy with
    | none => rw [hq] at hsome; exact nomatch hsome
    | some b =>
        have hos : s'.outcome.isSome := hInv'.outDec.mpr (by rw [hq]; rfl)
        cases ho : s'.outcome with
        | none => rw [ho] at hos; exact nomatch hos
        | some o => exact ⟨o, b, rfl, rfl⟩
  · intro hn
    constructor
    · cases ho : s'.outcome with
      | none => rfl
      | some o =>
          have hos : s'.decidedBy.isSome := hInv'.outDec.mp (by rw [ho]; rfl)
          rw [hn] at hos
          exact nomatch hos
    · intro hfin
      have hsome := hInv'.finDec.mp hfin
      rw [hn] at hsome
      exact nomatch hsome

/-- The state after the worker, running on after the cancellation outcome
of `c2St` was already returned, completes in the background. -/
def c7St : St :=
  { c2St with
    wpc := .exited
    respSlot := .mk "ok"
    respWritten := true
    errWritten := true
    respWrites := 1
    errWrites := 1
    doneClosed := true }

/-- The late worker runs to completion after the decision. -/
theorem c7_steps : Relation.ReflTransGen (Step env2) c2St c7St := by
  have h0 : Relation.ReflTransGen (Step env2) c2St c2St :=
    Relation.ReflTransGen.refl
  have h1 := h0.tail (Step.wLock c2St rfl rfl)
  have h2 := h1.tail (Step.wCallRet _ (GoAny.mk "ok") none rfl rfl)
  have h3 := h2.tail (Step.wWriteResp _ (GoAny.mk "ok") none rfl)
  have h4 := h3.tail (Step.wWriteErr _ none rfl)
  have h5 := h4.tail (Step.wClose _ rfl)
  exact h5.tail (Step.wUnlockNormal _ rfl)

/-- Witness for C7: the cancellation decision survives the late worker. -/
theorem unary_timeout_exactly_one_outcome_witness :
    c2St.decidedBy = some Branch.ctxDone ∧
    c7St.decidedBy = some Branch.ctxDone ∧
    c7St.outcome = c2St.outcome ∧ c7St.spc = SPc.finished := by
  have h := unary_timeout_exactly_one_outcome env2 c2St c7St c2_reach c7_steps
  obtain ⟨h1, h2, h3⟩ := h.1 Branch.ctxDone rfl
  exact ⟨rfl, h1, h2, h3⟩

/-- C8: the worker performs at most one send on the fault channel, and
whenever the worker is at its send, the capacity-1 buffer is empty, so
the send step is enabled and completes without blocking even if nobody
ever receives. -/
theorem unary_timeout_send_nonblocking
    (env : Env) (s : St) (hreach : Reachable env s) :
    s.sendCount ≤ 1 ∧
    (∀ msg, s.wpc = WPc.sendFault msg →
      s.chan.length < 1 ∧
      Step env s { s with
        wpc := WPc.exited, chan := s.chan ++ [msg],
        sendCount := s.sendCount + 1 }) := by
  have hInv := reachable_inv hreach
  refine ⟨hInv.sendLe, fun msg h => ?_⟩
  have hp := hInv.preSend (by rw [h]; exact fun hh => nomatch hh)
  have hlen : s.chan.length < 1 := by rw [hp.1]; simp
  exact ⟨hlen, Step.wSend s msg h hlen⟩

/-- The state with the worker poised at the fault-channel send. -/
def c8St : St :=
  { initSt with wpc := .sendFault (panicMessage (.mk "boom") env3.stack) }

/-- Reaching the send point on the fault path. -/
theorem c8_reach : Reachable env3 c8St := by
  have h0 : Reachable env3 initSt := Relation.ReflTransGen.refl
  have h1 := h0.tail (Step.wLock initSt rfl rfl)
  have h2 := h1.tail (Step.wCallPanic _ (GoAny.mk "boom") rfl rfl)
  have h3 := h2.tail (Step.wUnlockPanic _ (GoAny.mk "boom") rfl)
  exact h3.tail (Step.wRecoverSome _ (GoAny.mk "boom") rfl
    (fun h => nomatch h))

/-- Witness for C8 at the concrete send point. -/
theorem unary_timeout_send_nonblocking_witness :
    c8St.sendCount ≤ 1 ∧ c8St.chan.length < 1 := by
  have h := unary_timeout_send_nonblocking env3 c8St c8_reach
  exact ⟨h.1, (h.2 (panicMessage (.mk "boom") env3.stack) rfl).1⟩

/-- C9: when the handler panics with a nil value, `recover()` yields nil,
so nothing is ever sent on the fault channel, the completion marker is
never closed, and the invocation can only be decided by the context-done
branch, whose outcome carries the mapped context error — the fault is
silently lost. -/
theorem unary_timeout_nil_panic_lost
    (env : Env) (s : St)
    (hres : env.handlerRes = HandlerOutcome.panics GoAny.nil)
    (hreach : Reachable env s) :
    s.chan = [] ∧ s.sendCount = 0 ∧ s.doneClosed = false ∧
    (∀ b, s.decidedBy = some b → b = Branch.ctxDone) ∧
    (∀ o, s.outcome = some o →
      o = Outcome.ret GoAny.nil (some (mapCtxErr (ctxErrOf env.ctxReason)))) := by
  have hInv := reachable_inv hreach
  have hchan : s.chan = [] := by
    cases hq : s.chan with
    | nil => rfl
    | cons m rest =>
        obtain ⟨v, h1, h2, _⟩ := hInv.chanMsgs m
          (by rw [hq]; exact List.mem_cons_self m rest)
        rw [hres] at h1
        injection h1 with h3
        exact absurd h3.symm h2
  have hcnt : s.sendCount = 0 := by
    cases hq : s.sendCount with
    | zero => rfl
    | succ n =>
        obtain ⟨v, h1, h2⟩ := hInv.sendPos
          (by rw [hq]; exact Nat.succ_le_succ (Nat.zero_le n))
        rw [hres] at h1
        injection h1 with h3
        exact absurd h3.symm h2
  have hdone : s.doneClosed = false := by
    cases hq : s.doneClosed
    · rfl
    · obtain ⟨r, e, h1, _⟩ := hInv.respW (hInv.doneW hq).1
      rw [hres] at h1
      exact nomatch h1
  refine ⟨hchan, hcnt, hdone, ?_, ?_⟩
  · intro b hq
    cases b with
    | relay =>
        obtain ⟨v, h1, h2, _⟩ := hInv.decRelay hq
        rw [hres] at h1
        injection h1 with h3
        exact absurd h3.symm h2
    | completion =>
        obtain ⟨_, r, e, h1, _⟩ := hInv.decComp hq
        rw [hres] at h1
        exact nomatch h1
    | ctxDone => rfl
  · intro o ho
    have hsome : s.decidedBy.isSome := hInv.outDec.mp (by rw [ho]; rfl)
    cases hq : s.decidedBy with
    | none => rw [hq] at hsome; exact nomatch hsome
    | some b =>
      cases b with
      | relay =>
          obtain ⟨v, h1, h2, _⟩ := hInv.decRelay hq
          rw [hres] at h1
          injection h1 with h3
          exact absurd h3.symm h2
      | completion =>
          obtain ⟨_, r, e, h1, _⟩ := hInv.decComp hq
          rw [hres] at h1
          exact nomatch h1
      | ctxDone =>
          have h2 := (hInv.decCtx hq).2
          rw [ho] at h2
          exact Option.some.inj h2

/-- Environment in which the handler panics with a nil value. -/
def env9 : Env :=
  { handlerRes := .panics .nil
    ctxReason := .deadlineExceeded
    stack := "stk" }

/-- The state after a nil panic is silently swallowed and the deadline
then fires. -/
def c9St : St :=
  { initSt with
    wpc := .exited
    spc := .finished
    ctxFired := true
    outcome := some (.ret .nil
      (some (.statusErr .deadlineExceeded "context deadline exceeded")))
    decidedBy := some .ctxDone }

/-- The nil-panic trace: the worker panics with nil, the recovery sees
nil and sends nothing, then the deadline fires and the select returns. -/
theorem c9_reach : Reachable env9 c9St := by
  have h0 : Reachable env9 initSt := Relation.ReflTransGen.refl
  have h1 := h0.tail (Step.wLock initSt rfl rfl)
  have h2 := h1.tail (Step.wCallPanic _ GoAny.nil rfl rfl)
  have h3 := h2.tail (Step.wUnlockPanic _ GoAny.nil rfl)
  have h4 := h3.tail (Step.wRecoverNil _ rfl)
  have h5 := h4.tail (Step.ctxFire _ rfl)
  exact h5.tail (Step.sCtx _ rfl rfl)

/-- Witness for C9 on the concrete nil-panic trace. -/
theorem unary_timeout_nil_panic_lost_witness :
    env9.handlerRes = HandlerOutcome.panics GoAny.nil ∧
    c9St.chan = [] ∧ c9St.sendCount = 0 ∧ c9St.doneClosed = false := by
  have h := unary_timeout_nil_panic_lost env9 c9St rfl c9_reach
  exact ⟨rfl, h.1, h.2.1, h.2.2.1⟩

/-- C10: the `(resp, err)` slots are written only by the worker while it
holds the mutex and each at most once; they are read only by the
supervisor while it holds the mutex on the completion branch, at most
once, and only after both writes have landed with the handler's values —
no torn pair is ever observed; and once the context-done branch has
decided, any further worker activity leaves the returned outcome
untouched. -/
theorem unary_timeout_result_slot_protected
    (env : Env) (s s' : St)
    (hreach : Reachable env s)
    (hsteps : Relation.ReflTransGen (Step env) s s') :
    (∀ r e, s.wpc = WPc.writeResp r e →
      s.lockHeld = some Owner.worker ∧ s.respWritten = false) ∧
    (∀ e, s.wpc = WPc.writeErr e →
      s.lockHeld = some Owner.worker ∧ s.errWritten = false) ∧
    s.respWrites ≤ 1 ∧ s.errWrites ≤ 1 ∧ s.readCount ≤ 1 ∧
    (s.spc = SPc.readResp ∨ (∃ r, s.spc = SPc.readErr r) →
      s.lockHeld = some Owner.supervisor ∧ s.doneClosed = true ∧
      s.respWritten = true ∧ s.errWritten = true ∧
      ∃ r e, env.handlerRes = HandlerOutcome.ret r e ∧
        s.respSlot = r ∧ s.errSlot = e) ∧
    (∀ r, s.spc = SPc.readErr r → r = s.respSlot) ∧
    (s.decidedBy = some Branch.ctxDone → s'.outcome =
      some (Outcome.ret GoAny.nil (some (mapCtxErr (ctxErrOf env.ctxReason))))) := by
  have hInv := reachable_inv hreach
  refine ⟨?_, ?_, ?_, ?_, ?_, ?_, hInv.readErrPc, ?_⟩
  · intro r e h
    exact ⟨hInv.lockW.mpr (by rw [h]; rfl), (hInv.wrPc r e h).2.1⟩
  · intro e h
    exact ⟨hInv.lockW.mpr (by rw [h]; rfl), (hInv.wePc e h).2.2⟩
  · rw [hInv.respCnt]; cases s.respWritten <;> simp
  · rw [hInv.errCnt]; cases s.errWritten <;> simp
  · rw [hInv.readCnt]; split <;> simp
  · intro h
    have hlock : s.lockHeld = some Owner.supervisor :=
      hInv.lockS.mpr (by rcases h with h | ⟨r, h⟩ <;> rw [h] <;> rfl)
    have hd : s.doneClosed = true := by
      rcases h with h | hr
      · exact hInv.sDonePc (Or.inr (Or.inl h))
      · exact hInv.sDonePc (Or.inr (Or.inr hr))
    have hw := hInv.doneW hd
    obtain ⟨r0, e0, hres0, hslot⟩ := hInv.respW hw.1
    obtain ⟨_, r1, e1, hres1, hslot1⟩ := hInv.errW hw.2
    rw [hres0] at hres1
    injection hres1 with hA hB
    exact ⟨hlock, hd, hw.1, hw.2, r0, e0, hres0, hslot, by rw [hslot1, hB]⟩
  · intro hd
    obtain ⟨h1, h2⟩ := steps_preserve_decision hreach hsteps hd
    rw [h2]
    exact (hInv.decCtx hd).2

/-- The state with the supervisor about to read the pair under the lock. -/
def c10St : St :=
  { wpc := .exited
    spc := .readResp
    lockHeld := some .supervisor
    respSlot := .mk "ok"
    errSlot := none
    respWritten := true
    errWritten := true
    respWrites := 1
    errWrites := 1
    doneClosed := true
    chan := []
    sendCount := 0
    readCount := 0
    ctxFired := false
    outcome := none
    decidedBy := none }

/-- Reaching the supervisor's read point on the completion path. -/
theorem c10_reach : Reachable env1 c10St := by
  have h0 : Reachable env1 initSt := Relation.ReflTransGen.refl
  have h1 := h0.tail (Step.wLock initSt rfl rfl)
  have h2 := h1.tail (Step.wCallRet _ (GoAny.mk "ok") none rfl rfl)
  have h3 := h2.tail (Step.wWriteResp _ (GoAny.mk "ok") none rfl)
  have h4 := h3.tail (Step.wWriteErr _ none rfl)
  have h5 := h4.tail (Step.wClose _ rfl)
  have h6 := h5.tail (Step.wUnlockNormal _ rfl)
  have h7 := h6.tail (Step.sDone _ rfl rfl)
  exact h7.tail (Step.sLock _ rfl rfl)

/-- Witness for C10 at the concrete read point. -/
theorem unary_timeout_result_slot_protected_witness :
    c10St.respWrites ≤ 1 ∧ c10St.readCount ≤ 1 ∧
    c10St.lockHeld = some Owner.supervisor ∧ c10St.doneClosed = true := by
  have h := unary_timeout_result_slot_protected env1 c10St c10St c10_reach
    Relation.ReflTransGen.refl
  obtain ⟨h1, h2, h3, h4, h5, h6, h7, h8⟩ := h
  obtain ⟨ha, hb, _⟩ := h6 (Or.inl rfl)
  exact ⟨h3, h5, ha, hb⟩

/-- C4: timeout resolution is total and follows the priority order: a
server implementing `TimeoutStrategy` is delegated to unconditionally
(the registry is not consulted, whatever it holds); otherwise a registry
entry of type `time.Duration` is returned; otherwise — no entry, or an
entry of the wrong dynamic type — the default is returned. -/
theorem getTimeoutByUnaryServerInfo_priority
    (reg : Registry) (m : String) (d : Int) :
    (∀ f, getTimeoutByUnaryServerInfo reg
      { server := ServerVal.withStrategy f, fullMethod := m } d = f m d) ∧
    (∀ t, reg m = some (RegVal.duration t) →
      getTimeoutByUnaryServerInfo reg
        { server := ServerVal.plain, fullMethod := m } d = t) ∧
    (reg m = none →
      getTimeoutByUnaryServerInfo reg
        { server := ServerVal.plain, fullMethod := m } d = d) ∧
    (reg m = some RegVal.other →
      getTimeoutByUnaryServerInfo reg
        { server := ServerVal.plain, fullMethod := m } d = d) := by
  refine ⟨fun f => rfl, fun t ht => ?_, fun h => ?_, fun h => ?_⟩ <;>
    simp [getTimeoutByUnaryServerInfo, *]

/-- A registry holding a duration at one route and a non-duration value
at another, for the concrete resolver checks. -/
def c4Reg : Registry := fun k =>
  if k = "/pkg.Svc/A" then some (.duration 30)
  else if k = "/pkg.Svc/W" then some .other
  else none

/-- Witness for C4 on a concrete registry: the strategy wins even over a
conflicting entry, a duration entry is returned, and both a missing
entry and a wrong-typed entry fall back to the default. -/
theorem getTimeoutByUnaryServerInfo_priority_witness :
    getTimeoutByUnaryServerInfo c4Reg
      { server := ServerVal.withStrategy (fun _ dd => dd + 1),
        fullMethod := "/pkg.Svc/A" } 50 = 51 ∧
    getTimeoutByUnaryServerInfo c4Reg
      { server := ServerVal.plain, fullMethod := "/pkg.Svc/A" } 50 = 30 ∧
    getTimeoutByUnaryServerInfo c4Reg
      { server := ServerVal.plain, fullMethod := "/pkg.Svc/B" } 50 = 50 ∧
    getTimeoutByUnaryServerInfo c4Reg
      { server := ServerVal.plain, fullMethod := "/pkg.Svc/W" } 50 = 50 := by
  have hA := getTimeoutByUnaryServerInfo_priority c4Reg "/pkg.Svc/A" 50
  have hB := getTimeoutByUnaryServerInfo_priority c4Reg "/pkg.Svc/B" 50
  have hW := getTimeoutByUnaryServerInfo_priority c4Reg "/pkg.Svc/W" 50
  refine ⟨?_, hA.2.1 30 rfl, hB.2.2.1 rfl, hW.2.2.2 rfl⟩
  rw [hA.1 (fun _ dd => dd + 1)]
  norm_num

/-- The registry for the C5 example: route `A` has an override of 30,
route `B` has none. -/
def c5Reg : Registry := SetTimeoutForFullMethod (fun _ => none) "/pkg.Svc/A" 30

/-- The C5 example call sequence: first route `A`, then route `B`. -/
def c5Infos : Nat → UnaryServerInfo := fun n =>
  if n = 0 then { server := .plain, fullMethod := "/pkg.Svc/A" }
  else { server := .plain, fullMethod := "/pkg.Svc/B" }

/-- C5: the wrapper closure reassigns its captured `timeout` variable, so
the default fed to resolution at invocation `n + 1` is the timeout
resolved at invocation `n`, and the factory argument `d` is the default
only for invocation 0; concretely, after a call to a route with a
registry override of 30, a following call to a route with no override
resolves to 30 whatever `d` was. -/
theorem unary_timeout_default_threading
    (regs : Nat → Registry) (d : Int) (f : Nat → UnaryServerInfo) :
    capturedVar regs d f 0 = d ∧
    (∀ n, resolvedTimeout regs d f n =
      getTimeoutByUnaryServerInfo (regs n) (f n) (capturedVar regs d f n)) ∧
    (∀ n, capturedVar regs d f (n + 1) = resolvedTimeout regs d f n) ∧
    (∀ d', resolvedTimeout (fun _ => c5Reg) d' c5Infos 1 = 30) :=
  ⟨rfl, fun n => rfl, fun n => rfl, fun d' => rfl⟩

/-- C6: registering two durations for the same route in order leaves the
later one in the registry, and resolution for that route on a server
without a strategy returns it, even after further registrations for
other routes: last write wins. -/
theorem setTimeoutForFullMethod_last_write_wins
    (reg : Registry) (m : String) (d1 d2 dflt : Int)
    (l : List (String × Int)) (hl : ∀ p ∈ l, p.1 ≠ m) :
    getTimeoutByUnaryServerInfo
      (applyRegs l (SetTimeoutForFullMethod
        (SetTimeoutForFullMethod reg m d1) m d2))
      { server := ServerVal.plain, fullMethod := m } dflt = d2 := by
  have hlook : ∀ (l' : List (String × Int)) (r : Registry),
      (∀ p ∈ l', p.1 ≠ m) → applyRegs l' r m = r m := by
    intro l'
    induction l' with
    | nil => intro r _; rfl
    | cons p tl ih =>
        intro r hns
        have hstep : applyRegs (p :: tl) r =
            applyRegs tl (SetTimeoutForFullMethod r p.1 p.2) := rfl
        rw [hstep, ih (SetTimeoutForFullMethod r p.1 p.2)
          (fun q hq => hns q (List.mem_cons_of_mem p hq))]
        have hne : ¬(m = p.1) :=
          fun hh => hns p (List.mem_cons_self p tl) hh.symm
        simp [SetTimeoutForFullMethod, hne]
  have hreg : applyRegs l (SetTimeoutForFullMethod
      (SetTimeoutForFullMethod reg m d1) m d2) m =
      some (RegVal.duration d2) := by
    rw [hlook l _ hl]
    simp [SetTimeoutForFullMethod]
  simp [getTimeoutByUnaryServerInfo, hreg]

/-- Witness for C6 on concrete registrations with an unrelated later
registration in between. -/
theorem setTimeoutForFullMethod_last_write_wins_witness :
    getTimeoutByUnaryServerInfo
      (applyRegs [("/pkg.Svc/other", 7)] (SetTimeoutForFullMethod
        (SetTimeoutForFullMethod (fun _ => none) "/pkg.Svc/A" 10)
        "/pkg.Svc/A" 20))
      { server := ServerVal.plain, fullMethod := "/pkg.Svc/A" } 50 = 20 :=
  setTimeoutForFullMethod_last_write_wins (fun _ => none) "/pkg.Svc/A" 10 20 50
    [("/pkg.Svc/other", 7)] (by decide)

end TimeoutInterceptor
